import Mathlib

/-!
Verification of the raw-tracks normalization tool (render-track.js and
normalize-track.js).

JavaScript numbers are modelled as exact rationals (ℚ); `Math.round x`
becomes `jsRound` (floor of `x + 1/2`) and `Math.floor` becomes `Int.floor`.
External ffmpeg invocations, file writes and file removals are modelled as an
event trace; an oracle `ok : String → Bool` decides, by label, whether each
external command succeeds (the command-execution collaborator's outcome).
-/

/-- A gap interval from the track analysis (`{start, end}` objects in the
source; `end` is a Lean keyword, so the field is named `stop`). -/
structure Gap where
  start : ℚ
  stop : ℚ
  deriving DecidableEq

/-- Segment tag, `'src'` or `'gap'` in the source. -/
inductive SegType
  | src
  | gap
  deriving DecidableEq

/-- A planned segment (`{start, end, type}` objects in the source; the `end`
field is again named `stop`). -/
structure Segment where
  start : ℚ
  stop : ℚ
  type : SegType
  deriving DecidableEq

/-- The segment-planning loop of `normalizeVideoTrackToM4V` (render-track.js
lines 144-157): cursor `t` starts at 0; each gap emits an optional leading
`src` segment `[t, gap.start)` (only when `gap.start > t`) followed by a `gap`
segment `[gap.start, gap.end)`, moving the cursor to `gap.end`; after the
loop a trailing `src` segment covers `[t, endTime)` when `t < endTime`. -/
def planLoop (endTime : ℚ) : ℚ → List Gap → List Segment
  | t, [] => if t < endTime then [⟨t, endTime, SegType.src⟩] else []
  | t, g :: gs =>
      (if g.start > t then [⟨t, g.start, SegType.src⟩] else []) ++
        ⟨g.start, g.stop, SegType.gap⟩ :: planLoop endTime g.stop gs

/-- The full segment plan of `normalizeVideoTrackToM4V`. -/
def planSegments (gaps : List Gap) (endTime : ℚ) : List Segment :=
  planLoop endTime 0 gaps

/-- Chain predicate `isChain t e l`: the segments of `l` cover `[t, e)` contiguously, in
ascending order, each with positive duration.  This packages contiguity,
ordering and non-overlap of a segment list at once. -/
def isChain : ℚ → ℚ → List Segment → Prop
  | t, e, [] => t = e
  | t, e, s :: rest => s.start = t ∧ s.start < s.stop ∧ isChain s.stop e rest

/-- The documented gap-list invariant, threaded with a lower bound `t`
(initially 0): every gap satisfies `t ≤ start < end ≤ endTime` with the bound
advancing to each gap's end, which is exactly "each gap has 0 ≤ start < end,
gaps sorted ascending, mutually non-overlapping, all within [0, endTime]". -/
def gapsValid : ℚ → ℚ → List Gap → Prop
  | _, _, [] => True
  | t, e, g :: gs => t ≤ g.start ∧ g.start < g.stop ∧ g.stop ≤ e ∧ gapsValid g.stop e gs

/-- No two consecutive segments are both `src`: the planner never emits two
adjacent source segments (adjacent input gaps legitimately yield back-to-back
`gap` segments, as the spec's edge-case list states). -/
def noTwoSrc : List Segment → Prop
  | a :: b :: rest => ¬(a.type = SegType.src ∧ b.type = SegType.src) ∧ noTwoSrc (b :: rest)
  | _ => True

theorem noTwoSrc_cons_gap (x : Segment) (hx : x.type = SegType.gap) (l : List Segment)
    (hl : noTwoSrc l) : noTwoSrc (x :: l) := by
  cases l with
  | nil => trivial
  | cons b r =>
      refine ⟨fun hc => ?_, hl⟩
      rw [hx] at hc
      exact absurd hc.1 (by simp)

theorem planLoop_chain (E : ℚ) :
    ∀ (gs : List Gap) (t : ℚ), gapsValid t E gs → t ≤ E → isChain t E (planLoop E t gs) := by
  intro gs
  induction gs with
  | nil =>
      intro t _ ht
      by_cases h : t < E
      · simp [planLoop, h, isChain]
      · have heq : t = E := le_antisymm ht (not_lt.mp h)
        simp [planLoop, h, isChain, heq]
  | cons g gs ih =>
      intro t hv ht
      obtain ⟨h1, h2, h3, h4⟩ := hv
      have hrest := ih g.stop h4 h3
      by_cases hgt : t < g.start
      · rw [planLoop, if_pos hgt]
        exact ⟨rfl, hgt, rfl, h2, hrest⟩
      · have heq : g.start = t := le_antisymm (not_lt.mp hgt) h1
        rw [planLoop, if_neg hgt, List.nil_append]
        exact ⟨heq, h2, hrest⟩

theorem isChain_sum :
    ∀ (l : List Segment) (t e : ℚ), isChain t e l →
      (l.map fun s => s.stop - s.start).sum = e - t := by
  intro l
  induction l with
  | nil =>
      intro t e h
      have : t = e := h
      simp [this]
  | cons s rest ih =>
      intro t e h
      obtain ⟨h1, _, h3⟩ := h
      have hs := ih s.stop e h3
      simp only [List.map_cons, List.sum_cons, hs, h1]
      ring

theorem planLoop_noTwoSrc (E : ℚ) :
    ∀ (gs : List Gap) (t : ℚ), noTwoSrc (planLoop E t gs) := by
  intro gs
  induction gs with
  | nil =>
      intro t
      by_cases h : t < E
      · rw [planLoop, if_pos h]; trivial
      · rw [planLoop, if_neg h]; trivial
  | cons g gs ih =>
      intro t
      have hg : noTwoSrc (⟨g.start, g.stop, SegType.gap⟩ :: planLoop E g.stop gs) :=
        noTwoSrc_cons_gap _ rfl _ (ih g.stop)
      by_cases h : t < g.start
      · rw [planLoop, if_pos h, List.cons_append, List.nil_append]
        exact ⟨fun hc => absurd hc.2 (by simp), hg⟩
      · rw [planLoop, if_neg h, List.nil_append]
        exact hg

/-- C1: for every gap list satisfying the documented invariant (each gap has
0 ≤ start < end, sorted ascending, mutually non-overlapping, all within
[0, endTime]) and every endTime E > 0, the planner's segment list partitions
[0, E]: it is contiguous, non-overlapping, ordered ascending (`isChain 0 E`),
its durations sum to exactly E, and the tags alternate correctly (the planner
never emits two adjacent `src` segments; adjacent input gaps deliberately
yield back-to-back `gap` segments per the spec's edge cases). -/
theorem planSegments_partitions (gaps : List Gap) (E : ℚ) (hE : 0 < E)
    (hg : gapsValid 0 E gaps) :
    isChain 0 E (planSegments gaps E) ∧
    ((planSegments gaps E).map fun s => s.stop - s.start).sum = E ∧
    noTwoSrc (planSegments gaps E) := by
  have hc : isChain 0 E (planSegments gaps E) := planLoop_chain E gaps 0 hg (le_of_lt hE)
  refine ⟨hc, ?_, planLoop_noTwoSrc E gaps 0⟩
  have := isChain_sum (planSegments gaps E) 0 E hc
  simpa using this

/-- Witness for C1 at the spec's concrete scenario: gaps = [{2, 2.5}],
endTime = 5. -/
theorem planSegments_partitions_witness :
    (0 : ℚ) < 5 ∧ gapsValid 0 5 [⟨2, 5/2⟩] ∧
    (isChain 0 5 (planSegments [⟨2, 5/2⟩] 5) ∧
      ((planSegments [⟨2, 5/2⟩] 5).map fun s => s.stop - s.start).sum = 5 ∧
      noTwoSrc (planSegments [⟨2, 5/2⟩] 5)) :=
  ⟨by norm_num,
   by simp only [gapsValid]; norm_num,
   planSegments_partitions [⟨2, 5/2⟩] 5 (by norm_num) (by simp only [gapsValid]; norm_num)⟩

/-- JavaScript `Math.round`: rounds to the nearest integer, halves toward
positive infinity. -/
def jsRound (q : ℚ) : ℤ := ⌊q + 1/2⌋

/-- The rendered duration of one segment (render-track.js line 199):
`Math.round((end - start) * 1000) / 1000`, i.e. the exact duration rounded to
millisecond granularity. -/
def segDuration (s : Segment) : ℚ := (jsRound ((s.stop - s.start) * 1000) : ℚ) / 1000

theorem jsRound_err (q : ℚ) : |(jsRound q : ℚ) - q| ≤ 1/2 := by
  rw [abs_le]
  constructor
  · have h := Int.sub_one_lt_floor (q + 1/2)
    rw [jsRound]
    linarith
  · have h := Int.floor_le (q + 1/2)
    rw [jsRound]
    linarith

theorem segDuration_err (s : Segment) : |segDuration s - (s.stop - s.start)| ≤ 1/2000 := by
  have h := jsRound_err ((s.stop - s.start) * 1000)
  rw [segDuration]
  have h2 : (jsRound ((s.stop - s.start) * 1000) : ℚ) / 1000 - (s.stop - s.start)
      = ((jsRound ((s.stop - s.start) * 1000) : ℚ) - (s.stop - s.start) * 1000) / 1000 := by
    ring
  rw [h2, abs_div]
  rw [show |(1000 : ℚ)| = 1000 by norm_num]
  rw [div_le_iff₀ (by norm_num : (0:ℚ) < 1000)]
  calc |(jsRound ((s.stop - s.start) * 1000) : ℚ) - (s.stop - s.start) * 1000| ≤ 1/2 := h
    _ ≤ 1/2000 * 1000 := by norm_num

theorem sum_segDuration_err :
    ∀ l : List Segment,
      |(l.map segDuration).sum - (l.map fun s => s.stop - s.start).sum|
        ≤ (l.length : ℚ) * (1/2000) := by
  intro l
  induction l with
  | nil => simp
  | cons s rest ih =>
      simp only [List.map_cons, List.sum_cons, List.length_cons]
      have tri : |(segDuration s + (rest.map segDuration).sum) -
          ((s.stop - s.start) + (rest.map fun x => x.stop - x.start).sum)|
          ≤ |segDuration s - (s.stop - s.start)| +
            |(rest.map segDuration).sum - (rest.map fun x => x.stop - x.start).sum| := by
        have := abs_add (segDuration s - (s.stop - s.start))
          ((rest.map segDuration).sum - (rest.map fun x => x.stop - x.start).sum)
        calc |(segDuration s + (rest.map segDuration).sum) -
            ((s.stop - s.start) + (rest.map fun x => x.stop - x.start).sum)|
            = |(segDuration s - (s.stop - s.start)) +
              ((rest.map segDuration).sum - (rest.map fun x => x.stop - x.start).sum)| := by
              congr 1
              ring
          _ ≤ _ := this
      have hd := segDuration_err s
      have : ((rest.length : ℚ) + 1) * (1/2000) = 1/2000 + (rest.length : ℚ) * (1/2000) := by
        ring
      push_cast
      rw [this]
      calc |(segDuration s + (rest.map segDuration).sum) -
          ((s.stop - s.start) + (rest.map fun x => x.stop - x.start).sum)|
          ≤ |segDuration s - (s.stop - s.start)| +
            |(rest.map segDuration).sum - (rest.map fun x => x.stop - x.start).sum| := tri
        _ ≤ 1/2000 + (rest.length : ℚ) * (1/2000) := add_le_add hd ih

/-- One entry of an ffmpeg argument vector.  The JavaScript arrays mix
strings and numbers (durations, seek offsets, the frame rate), so the
embedding keeps the two cases apart. -/
inductive Arg
  | str : String → Arg
  | num : ℚ → Arg
  deriving DecidableEq

/-- The element directly after the first occurrence of the flag `flag` in an
argument vector (the flag's value in ffmpeg syntax). -/
def argAfter (flag : String) : List Arg → Option Arg
  | [] => none
  | [_] => none
  | a :: b :: rest => if a = Arg.str flag then some b else argAfter flag (b :: rest)

/-- The argument vector built by `normalizeAudioTrackToAAC` (render-track.js
lines 84-94): input, the resample-then-delay filter with
`Math.floor(startTime * 1000)` milliseconds of delay on all channels, the
resolved encoder arguments, and the output path. -/
def aacArgs (startTime : ℚ) (enc : List String) (inputPath outputPath : String) : List Arg :=
  [Arg.str "-i", Arg.str inputPath, Arg.str "-af",
   Arg.str ("aresample=async=1,adelay=" ++ toString (Int.floor (startTime * 1000)) ++ ":all=true")]
  ++ enc.map Arg.str ++ [Arg.str outputPath]

/-- The argument vector built by `normalizeAudioTrackToWav` (render-track.js
lines 104-118): the same resample-then-delay filter, then 48 kHz mono 16-bit
PCM. -/
def wavArgs (startTime : ℚ) (inputPath outputPath : String) : List Arg :=
  [Arg.str "-i", Arg.str inputPath, Arg.str "-af",
   Arg.str ("aresample=async=1,adelay=" ++ toString (Int.floor (startTime * 1000)) ++ ":all=true"),
   Arg.str "-ar", Arg.str "48000", Arg.str "-ac", Arg.str "1",
   Arg.str "-c:a", Arg.str "pcm_s16le", Arg.str outputPath]

/-- The first filter stage: resample. -/
def resampleStage : String := "aresample=async=1"

/-- The second filter stage: a delay of `ms` milliseconds applied to all
channels. -/
def delayStage (ms : ℤ) : String := "adelay=" ++ toString ms ++ ":all=true"

theorem audioFilter_decomposed (ms : ℤ) :
    "aresample=async=1,adelay=" ++ toString ms ++ ":all=true"
      = resampleStage ++ "," ++ (delayStage ms) := by
  rw [resampleStage, delayStage]
  rw [show ("aresample=async=1" ++ "," : String) = "aresample=async=1," from rfl]
  rw [String.append_assoc, String.append_assoc]
  rw [← String.append_assoc "aresample=async=1,"]
  rw [show ("aresample=async=1," ++ "adelay=" : String) = "aresample=async=1,adelay=" from rfl]

/-- C3: on both the AAC and the WAV path the `-af` filter chain is the
resample stage followed (after the comma separator) by the delay stage, and
the delay equals `Math.floor(startTime * 1000)` milliseconds applied to all
channels. -/
theorem audio_filter_order_and_delay (startTime : ℚ) (enc : List String)
    (inputPath outputPath : String) :
    aacArgs startTime enc inputPath outputPath
        = [Arg.str "-i", Arg.str inputPath, Arg.str "-af",
           Arg.str (resampleStage ++ "," ++ delayStage (Int.floor (startTime * 1000)))]
          ++ enc.map Arg.str ++ [Arg.str outputPath] ∧
    wavArgs startTime inputPath outputPath
        = [Arg.str "-i", Arg.str inputPath, Arg.str "-af",
           Arg.str (resampleStage ++ "," ++ delayStage (Int.floor (startTime * 1000))),
           Arg.str "-ar", Arg.str "48000", Arg.str "-ac", Arg.str "1",
           Arg.str "-c:a", Arg.str "pcm_s16le", Arg.str outputPath] := by
  rw [← audioFilter_decomposed, aacArgs, wavArgs]
  exact ⟨rfl, rfl⟩

/-- The shared base arguments of every video render (render-track.js
line 164): frame rate, constant bitrate, libx264. -/
def baseArgs (frameRate : ℚ) : List Arg :=
  [Arg.str "-r", Arg.num frameRate, Arg.str "-b:v", Arg.str "5000k",
   Arg.str "-c:v", Arg.str "libx264"]

/-- The gap-synthesis argument vector (render-track.js lines 208-217): a
solid-black lavfi source at the target geometry and color matrix, cut to the
rounded duration. -/
def gapRenderArgs (w h frameRate : ℚ) (duration : ℚ) (dst : String) : List Arg :=
  [Arg.str "-f", Arg.str "lavfi", Arg.str "-i",
   Arg.str ("color=c=black:s=" ++ toString w ++ "x" ++ toString h ++
     ",format=yuv420p,scale=out_color_matrix=bt709:out_range=tv"),
   Arg.str "-t", Arg.num duration] ++ baseArgs frameRate ++ [Arg.str dst]

/-- The source-extraction argument vector (render-track.js lines 220-230):
seek to `start - sourceOffset` in the normalized intermediate and stream-copy
the rounded duration. -/
def srcExtractArgs (sourceOffset start duration : ℚ) (tmpSource dst : String) : List Arg :=
  [Arg.str "-ss", Arg.num (start - sourceOffset), Arg.str "-t", Arg.num duration,
   Arg.str "-i", Arg.str tmpSource, Arg.str "-c", Arg.str "copy", Arg.str dst]

/-- The per-segment render step of `normalizeVideoTrackToM4V` (render-track.js
lines 195-232): the duration is rounded to milliseconds, then either the gap
synthesizer or the segment extractor is invoked. -/
def renderSegmentArgs (w h frameRate sourceOffset : ℚ) (tmpSource dst : String)
    (s : Segment) : List Arg :=
  match s.type with
  | SegType.gap => gapRenderArgs w h frameRate (segDuration s) dst
  | SegType.src => srcExtractArgs sourceOffset s.start (segDuration s) tmpSource dst

/-- C2: for every segment rendered by `normalizeVideoTrackToM4V` the `-t`
duration is exactly `Math.round((end - start) * 1000) / 1000` seconds, and for
every `src` segment the `-ss` seek into the normalized intermediate is exactly
`start - analysis.startTime` (the source offset). -/
theorem renderSegment_offset_duration (gaps : List Gap) (E : ℚ)
    (w h frameRate startTime : ℚ) (tmpSource dst : String) (s : Segment)
    (_hs : s ∈ planSegments gaps E) :
    argAfter "-t" (renderSegmentArgs w h frameRate startTime tmpSource dst s)
        = some (Arg.num ((jsRound ((s.stop - s.start) * 1000) : ℚ) / 1000)) ∧
    (s.type = SegType.src →
      argAfter "-ss" (renderSegmentArgs w h frameRate startTime tmpSource dst s)
          = some (Arg.num (s.start - startTime))) := by
  have hcolor : ("color=c=black:s=" ++ toString w ++ "x" ++ toString h ++
      ",format=yuv420p,scale=out_color_matrix=bt709:out_range=tv") ≠ "-t" := by
    intro h
    have h2 := congrArg String.data h
    simp [String.data_append] at h2
  constructor
  · cases htype : s.type with
    | gap =>
        rw [renderSegmentArgs, htype]
        simp [gapRenderArgs, baseArgs, argAfter, segDuration, hcolor]
    | src =>
        rw [renderSegmentArgs, htype]
        simp [srcExtractArgs, argAfter, segDuration]
  · intro htype
    rw [renderSegmentArgs, htype]
    simp [srcExtractArgs, argAfter]

/-- Witness for C2, at the trailing source segment of the spec's concrete
scenario. -/
theorem renderSegment_offset_duration_witness :
    (⟨5/2, 5, SegType.src⟩ : Segment) ∈ planSegments [⟨2, 5/2⟩] 5 ∧
    (argAfter "-t" (renderSegmentArgs 1280 720 30 (1/5) "full.m4v" "seg2.m4v" ⟨5/2, 5, SegType.src⟩)
        = some (Arg.num ((jsRound (((5:ℚ) - 5/2) * 1000) : ℚ) / 1000)) ∧
      ((⟨5/2, 5, SegType.src⟩ : Segment).type = SegType.src →
        argAfter "-ss" (renderSegmentArgs 1280 720 30 (1/5) "full.m4v" "seg2.m4v" ⟨5/2, 5, SegType.src⟩)
            = some (Arg.num ((5:ℚ)/2 - 1/5)))) :=
  ⟨by simp [planSegments, planLoop],
   renderSegment_offset_duration [⟨2, 5/2⟩] 5 1280 720 30 (1/5) "full.m4v" "seg2.m4v"
     ⟨5/2, 5, SegType.src⟩ (by simp [planSegments, planLoop])⟩

/-- C4: for a reconstruction whose planner outputs N segments partitioning
[0, E], the sum of the rendered (millisecond-rounded) segment durations
deviates from E by at most N × 0.5 milliseconds, i.e. N × (1/2000) seconds,
in exact rational arithmetic. -/
theorem rendered_duration_sum_bound (gaps : List Gap) (E : ℚ) (hE : 0 < E)
    (hg : gapsValid 0 E gaps) :
    |((planSegments gaps E).map segDuration).sum - E|
      ≤ ((planSegments gaps E).length : ℚ) * (1/2000) := by
  have hc : isChain 0 E (planSegments gaps E) := planLoop_chain E gaps 0 hg (le_of_lt hE)
  have hsum : ((planSegments gaps E).map fun s => s.stop - s.start).sum = E := by
    simpa using isChain_sum (planSegments gaps E) 0 E hc
  have := sum_segDuration_err (planSegments gaps E)
  rwa [hsum] at this

/-- Witness for C4 at the spec's concrete scenario (3 segments, E = 5). -/
theorem rendered_duration_sum_bound_witness :
    (0 : ℚ) < 5 ∧ gapsValid 0 5 [⟨2, 5/2⟩] ∧
    |((planSegments [⟨2, 5/2⟩] 5).map segDuration).sum - 5|
      ≤ ((planSegments [⟨2, 5/2⟩] 5).length : ℚ) * (1/2000) :=
  ⟨by norm_num,
   by simp only [gapsValid]; norm_num,
   rendered_duration_sum_bound [⟨2, 5/2⟩] 5 (by norm_num) (by simp only [gapsValid]; norm_num)⟩

/-- The `videoSize` object of a track analysis; a dimension can be absent
(JavaScript `undefined`). -/
structure VideoSize where
  w : Option ℚ
  h : Option ℚ
  deriving DecidableEq

/-- The track-analysis record produced by the analysis collaborator.  Fields
that JavaScript can leave `undefined`/`null` are `Option`s. -/
structure TrackAnalysis where
  isVideo : Bool
  startTime : Option ℚ
  endTime : Option ℚ
  videoSize : Option VideoSize
  frameRate : Option ℚ
  gaps : Option (List Gap)
  deriving DecidableEq

/-- JavaScript truthiness of a possibly-absent number: `undefined`, `null`
and `0` are falsy (NaN has no counterpart in ℚ). -/
def truthy (q : Option ℚ) : Bool :=
  match q with
  | none => false
  | some x => decide (x ≠ 0)

/-- The precondition cascade of `normalizeVideoTrackToM4V` (render-track.js
lines 128-140).  The checks run in source order; an absent `videoSize` object
makes the member access `analysis.videoSize.w` itself raise a TypeError, which
is modelled as the distinguished error below. -/
def validateVideo (a : TrackAnalysis) : Except String Unit :=
  if !a.isVideo then Except.error "normalizeVideoTrack expects video input"
  else if !truthy a.endTime || a.startTime.isNone then
    Except.error "normalizeVideoTrack expects non-zero endTime and startTime key"
  else if a.gaps.isNone then Except.error "normalizeVideoTrack expects analysis.gaps to be set"
  else
    match a.videoSize with
    | none => Except.error "TypeError: cannot read w of undefined"
    | some vs =>
        if !truthy vs.w || !truthy vs.h then
          Except.error "normalizeVideoTrack expects analysis.videoSize to be set"
        else Except.ok ()

/-- One observable side effect of a run: an external ffmpeg invocation
(identified by its traceability label and argument vector), a file write, or
a file removal. -/
inductive Event
  | run : String → List Arg → Event
  | write : String → Event
  | remove : String → Event
  deriving DecidableEq

/-- The deterministic temp-file naming scheme (render-track.js lines 7,
173-176, 201, 235-238); `Path.resolve('/tmp', name)` becomes `"/tmp/" ++ name`. -/
def tmpSourceName (ctx : String) : String := "/tmp/rawtracks_" ++ ctx ++ "_full.m4v"

def segPathName (ctx : String) (i : ℕ) : String :=
  "/tmp/rawtracks_" ++ ctx ++ "_seg" ++ toString i ++ ".m4v"

def concatPathName (ctx : String) : String := "/tmp/rawtracks_" ++ ctx ++ "_concat.txt"

def convertLabel (ctx : String) : String := "convert_" ++ ctx

def concatLabel (ctx : String) : String := "concat_" ++ ctx

def segLabel (ctx : String) (i : ℕ) : SegType → String
  | SegType.gap => "rendergap_" ++ toString i ++ "_" ++ ctx
  | SegType.src => "extractseg_" ++ toString i ++ "_" ++ ctx

/-- The whole-source normalization pass (render-track.js lines 183-190). -/
def convertArgs (inputPath : String) (w h frameRate : ℚ) (tmpSource : String) : List Arg :=
  [Arg.str "-i", Arg.str inputPath, Arg.str "-vf",
   Arg.str ("scale=" ++ toString w ++ "x" ++ toString h ++ ":out_color_matrix=bt709:out_range=tv")]
  ++ baseArgs frameRate ++ [Arg.str tmpSource]

/-- The lossless concatenation pass (render-track.js line 245). -/
def concatArgs (concatPath outputPath : String) : List Arg :=
  [Arg.str "-f", Arg.str "concat", Arg.str "-i", Arg.str concatPath,
   Arg.str "-c", Arg.str "copy", Arg.str outputPath]

/-- The per-segment render loop (render-track.js lines 195-233): for segment
index `i` it records the destination path as a tracked temp file, invokes the
gap synthesizer or the segment extractor, and stops at the first failing
command.  Returns the event trace, the temp paths pushed so far, and the
outcome. -/
def renderLoop (ok : String → Bool) (ctx : String) (w h frameRate sourceOffset : ℚ)
    (tmpSource : String) : ℕ → List Segment → List Event × List String × Except String Unit
  | _, [] => ([], [], Except.ok ())
  | i, s :: rest =>
      let dst := segPathName ctx i
      let label := segLabel ctx i s.type
      let ev := Event.run label (renderSegmentArgs w h frameRate sourceOffset tmpSource dst s)
      if ok label then
        let r := renderLoop ok ctx w h frameRate sourceOffset tmpSource (i + 1) rest
        (ev :: r.1, dst :: r.2.1, r.2.2)
      else
        ([ev], [dst], Except.error label)

/-- The full `normalizeVideoTrackToM4V` (render-track.js lines 122-251):
validate, convert the whole input into the normalized intermediate, render
every segment in order, write the concat manifest, concatenate, and only then
remove every tracked temp file.  A failing external command aborts the run at
that point (the rejected promise propagates), leaving the remaining steps —
including all removals — unexecuted. -/
def normalizeVideoTrackToM4V (ok : String → Bool) (ctx : String) (a : TrackAnalysis)
    (inputPath outputPath : String) : List Event × Except String Unit :=
  match validateVideo a with
  | Except.error e => ([], Except.error e)
  | Except.ok _ =>
      let endTime := a.endTime.getD 0
      let gaps := a.gaps.getD []
      let frameRate := a.frameRate.getD 30
      let vs := a.videoSize.getD ⟨none, none⟩
      let w := vs.w.getD 0
      let h := vs.h.getD 0
      let sourceOffset := a.startTime.getD 0
      let segments := planSegments gaps endTime
      let tmpSource := tmpSourceName ctx
      let cev := Event.run (convertLabel ctx) (convertArgs inputPath w h frameRate tmpSource)
      if ok (convertLabel ctx) then
        let r := renderLoop ok ctx w h frameRate sourceOffset tmpSource 0 segments
        match r.2.2 with
        | Except.error e => (cev :: r.1, Except.error e)
        | Except.ok _ =>
            let cpath := concatPathName ctx
            let tmpFiles := tmpSource :: (r.2.1 ++ [cpath])
            if ok (concatLabel ctx) then
              (cev :: r.1 ++
                 [Event.write cpath, Event.run (concatLabel ctx) (concatArgs cpath outputPath)] ++
                 tmpFiles.map Event.remove,
               Except.ok ())
            else
              (cev :: r.1 ++
                 [Event.write cpath, Event.run (concatLabel ctx) (concatArgs cpath outputPath)],
               Except.error (concatLabel ctx))
      else ([cev], Except.error (convertLabel ctx))

/-- The full `normalizeAudioTrack` (render-track.js lines 50-73 plus the two
codec-specific renderers): validate the media type and `startTime`, then run a
single ffmpeg command on the WAV path (`codec = "wav"`), the AAC path
(`codec = "aac"`), or reject the codec.  `enc` is the resolved encoder
configuration consumed by the AAC path. -/
def normalizeAudioTrack (ok : String → Bool) (ctx : String) (a : TrackAnalysis)
    (inputPath outputPath : String) (codec : String) (enc : List String) :
    List Event × Except String Unit :=
  if a.isVideo then ([], Except.error "normalizeAudioTrack expects audio input")
  else if a.startTime.isNone then ([], Except.error "normalizeAudioTrack expects startTime key")
  else
    let st := a.startTime.getD 0
    if codec = "wav" then
      let label := "audio_" ++ ctx ++ "_wav"
      ([Event.run label (wavArgs st inputPath outputPath)],
       if ok label then Except.ok () else Except.error label)
    else if codec = "aac" then
      let label := "audio_" ++ ctx
      ([Event.run label (aacArgs st enc inputPath outputPath)],
       if ok label then Except.ok () else Except.error label)
    else ([], Except.error ("Unsupported audio codec \"" ++ codec ++ "\""))

/-- The paths removed along a trace, in removal order. -/
def removedPaths (tr : List Event) : List String :=
  tr.filterMap fun e =>
    match e with
    | Event.remove p => some p
    | _ => none

theorem removedPaths_nil : removedPaths [] = [] := rfl

theorem removedPaths_cons_run (l : String) (a : List Arg) (tr : List Event) :
    removedPaths (Event.run l a :: tr) = removedPaths tr := rfl

theorem removedPaths_cons_write (p : String) (tr : List Event) :
    removedPaths (Event.write p :: tr) = removedPaths tr := rfl

theorem removedPaths_cons_remove (p : String) (tr : List Event) :
    removedPaths (Event.remove p :: tr) = p :: removedPaths tr := rfl

theorem removedPaths_append (t1 t2 : List Event) :
    removedPaths (t1 ++ t2) = removedPaths t1 ++ removedPaths t2 := by
  simp [removedPaths, List.filterMap_append]

/-- The temp artifacts one video run tracks for cleanup: the normalized
intermediate, one file per planned segment, and the concat manifest — in
creation order (`tmpFiles` in the source). -/
def plannedTmpFiles (ctx : String) (a : TrackAnalysis) : List String :=
  tmpSourceName ctx ::
    (((List.range (planSegments (a.gaps.getD []) (a.endTime.getD 0)).length).map (segPathName ctx))
      ++ [concatPathName ctx])

theorem renderLoop_no_removes (ok : String → Bool) (ctx : String)
    (w h fr so : ℚ) (ts : String) :
    ∀ (segs : List Segment) (i : ℕ),
      removedPaths (renderLoop ok ctx w h fr so ts i segs).1 = [] := by
  intro segs
  induction segs with
  | nil => intro i; rfl
  | cons s rest ih =>
      intro i
      rw [renderLoop]
      by_cases hok : ok (segLabel ctx i s.type) = true
      · simp only [hok, if_true]
        rw [removedPaths_cons_run]
        exact ih (i + 1)
      · simp only [hok, if_false]
        rfl

theorem renderLoop_paths (ok : String → Bool) (ctx : String)
    (w h fr so : ℚ) (ts : String) :
    ∀ (segs : List Segment) (i : ℕ),
      (renderLoop ok ctx w h fr so ts i segs).2.2 = Except.ok () →
      (renderLoop ok ctx w h fr so ts i segs).2.1
        = (List.range' i segs.length).map (segPathName ctx) := by
  intro segs
  induction segs with
  | nil => intro i _; rfl
  | cons s rest ih =>
      intro i hok
      rw [renderLoop] at hok ⊢
      by_cases hl : ok (segLabel ctx i s.type) = true
      · simp only [hl, if_true] at hok ⊢
        rw [List.length_cons, List.range'_succ, List.map_cons]
        exact congrArg _ (ih (i + 1) hok)
      · rw [if_neg hl] at hok
        exact absurd hok (by simp)

/-- C6 (amended): temp artifacts are released only on the success exit path.
When a run of `normalizeVideoTrackToM4V` completes successfully, the removed
paths are exactly the tracked artifacts — the normalized intermediate, every
segment file in index order, and the concat manifest. -/
theorem cleanup_on_success_only (ok : String → Bool) (ctx : String) (a : TrackAnalysis)
    (inputPath outputPath : String) (tr : List Event)
    (h : normalizeVideoTrackToM4V ok ctx a inputPath outputPath = (tr, Except.ok ())) :
    removedPaths tr = plannedTmpFiles ctx a := by
  rw [normalizeVideoTrackToM4V] at h
  cases hval : validateVideo a with
  | error e =>
      rw [hval] at h
      exact absurd (congrArg Prod.snd h) (by simp)
  | ok u =>
      rw [hval] at h
      dsimp only at h
      by_cases hcv : ok (convertLabel ctx) = true
      · rw [if_pos hcv] at h
        cases hrl : (renderLoop ok ctx ((a.videoSize.getD ⟨none, none⟩).w.getD 0)
            ((a.videoSize.getD ⟨none, none⟩).h.getD 0) (a.frameRate.getD 30)
            (a.startTime.getD 0) (tmpSourceName ctx) 0
            (planSegments (a.gaps.getD []) (a.endTime.getD 0))).2.2 with
        | error e =>
            rw [hrl] at h
            dsimp only at h
            exact absurd (congrArg Prod.snd h) (by simp)
        | ok u2 =>
            rw [hrl] at h
            dsimp only at h
            by_cases hcc : ok (concatLabel ctx) = true
            · rw [if_pos hcc] at h
              have htr := congrArg Prod.fst h
              dsimp only at htr
              rw [← htr]
              have hmap : ∀ l : List String, removedPaths (l.map Event.remove) = l := by
                intro l
                induction l with
                | nil => rfl
                | cons p ps ihp => rw [List.map_cons, removedPaths_cons_remove, ihp]
              simp only [removedPaths_append, removedPaths_cons_run, removedPaths_cons_write,
                removedPaths_nil, renderLoop_no_removes, hmap, List.nil_append, List.append_nil]
              rw [plannedTmpFiles, renderLoop_paths _ _ _ _ _ _ _ _ _ hrl, List.range_eq_range']
            · rw [if_neg hcc] at h
              exact absurd (congrArg Prod.snd h) (by simp)
      · rw [if_neg hcv] at h
        exact absurd (congrArg Prod.snd h) (by simp)

/-- A well-formed sample video analysis: startTime 0.2, endTime 5, no gaps,
1280x720 at 30 fps. -/
def sampleVideoAnalysis : TrackAnalysis :=
  ⟨true, some (1/5), some 5, some ⟨some 1280, some 720⟩, some 30, some []⟩

/-- C6 counterexample: with a run whose final concatenation command fails
(every other command succeeds), `normalizeVideoTrackToM4V` exits with an
error after having written the concat manifest, yet removes nothing — the
claim that every temporary artifact is released on every exit path is false
on this exit path. -/
theorem cleanup_missing_on_failure :
    (normalizeVideoTrackToM4V (fun l => !(l == "concat_c")) "c" sampleVideoAnalysis
        "in.webm" "out.m4v").2 = Except.error "concat_c" ∧
    Event.write (concatPathName "c")
        ∈ (normalizeVideoTrackToM4V (fun l => !(l == "concat_c")) "c" sampleVideoAnalysis
            "in.webm" "out.m4v").1 ∧
    removedPaths (normalizeVideoTrackToM4V (fun l => !(l == "concat_c")) "c" sampleVideoAnalysis
        "in.webm" "out.m4v").1 = [] :=
  ⟨rfl, by decide, rfl⟩

/-- Witness for the amended C6 on a fully successful run. -/
theorem cleanup_on_success_only_witness :
    removedPaths (normalizeVideoTrackToM4V (fun _ => true) "c" sampleVideoAnalysis
        "in.webm" "out.m4v").1 = plannedTmpFiles "c" sampleVideoAnalysis :=
  cleanup_on_success_only (fun _ => true) "c" sampleVideoAnalysis "in.webm" "out.m4v"
    (normalizeVideoTrackToM4V (fun _ => true) "c" sampleVideoAnalysis "in.webm" "out.m4v").1
    rfl

/-- The four structured validation messages of `normalizeVideoTrackToM4V`. -/
def videoValidationMessages : List String :=
  ["normalizeVideoTrack expects video input",
   "normalizeVideoTrack expects non-zero endTime and startTime key",
   "normalizeVideoTrack expects analysis.gaps to be set",
   "normalizeVideoTrack expects analysis.videoSize to be set"]

/-- The precondition violations enumerated by the spec for the video path:
wrong media-type flag, missing startTime, missing or zero endTime, gaps not an
array, or a videoSize object with a missing/zero dimension. -/
def videoViolation (a : TrackAnalysis) : Prop :=
  a.isVideo = false ∨ a.startTime = none ∨ a.endTime = none ∨ a.endTime = some 0 ∨
  a.gaps = none ∨ ∃ vs, a.videoSize = some vs ∧ (truthy vs.w = false ∨ truthy vs.h = false)

/-- The precondition violations enumerated by the spec for the audio path:
video flag set, missing startTime, or an unsupported codec. -/
def audioViolation (a : TrackAnalysis) (codec : String) : Prop :=
  a.isVideo = true ∨ a.startTime = none ∨ (codec ≠ "aac" ∧ codec ≠ "wav")

theorem validateVideo_violation (a : TrackAnalysis) (hv : videoViolation a) :
    ∃ e, e ∈ videoValidationMessages ∧ validateVideo a = Except.error e := by
  by_cases h1 : a.isVideo = true
  case neg =>
    refine ⟨"normalizeVideoTrack expects video input", by simp [videoValidationMessages], ?_⟩
    rw [validateVideo]
    simp [h1]
  case pos =>
  by_cases h2 : (!truthy a.endTime || a.startTime.isNone) = true
  · refine ⟨"normalizeVideoTrack expects non-zero endTime and startTime key",
      by simp [videoValidationMessages], ?_⟩
    rw [validateVideo]
    simp [h1, h2]
  · by_cases h3 : a.gaps.isNone = true
    · refine ⟨"normalizeVideoTrack expects analysis.gaps to be set",
        by simp [videoValidationMessages], ?_⟩
      rw [validateVideo]
      simp only [h1, Bool.not_true, Bool.false_eq_true, if_false, h2, h3, if_true]
    · rcases hv with h | h | h | h | h | ⟨vs, hvs, h⟩
      · exact absurd h1 (by simp [h])
      · exact absurd h2 (by simp [h])
      · exact absurd h2 (by simp [truthy, h])
      · exact absurd h2 (by simp [truthy, h])
      · exact absurd h3 (by simp [h])
      · refine ⟨"normalizeVideoTrack expects analysis.videoSize to be set",
          by simp [videoValidationMessages], ?_⟩
        rw [validateVideo]
        simp only [h1, Bool.not_true, Bool.false_eq_true, if_false, h2, h3, hvs]
        rcases h with h | h <;> simp [h]

/-- C5: a violated precondition makes the affected function fail with a
structured validation error (drawn from the source's own messages) while the
event trace stays empty — no ffmpeg process is invoked and no temp file is
written, so no partial side effects occur. -/
theorem validation_failures_no_side_effects
    (ok : String → Bool) (ctx inputPath outputPath : String)
    (a b : TrackAnalysis) (codec : String) (enc : List String)
    (hv : videoViolation a) (ha : audioViolation b codec) :
    (∃ e, e ∈ videoValidationMessages ∧
      normalizeVideoTrackToM4V ok ctx a inputPath outputPath = ([], Except.error e)) ∧
    (∃ e, normalizeAudioTrack ok ctx b inputPath outputPath codec enc
        = ([], Except.error e)) := by
  constructor
  · obtain ⟨e, hm, he⟩ := validateVideo_violation a hv
    exact ⟨e, hm, by rw [normalizeVideoTrackToM4V, he]⟩
  · by_cases hV : b.isVideo = true
    · exact ⟨"normalizeAudioTrack expects audio input",
        by rw [normalizeAudioTrack]; simp [hV]⟩
    · by_cases hS : b.startTime.isNone = true
      · exact ⟨"normalizeAudioTrack expects startTime key",
          by rw [normalizeAudioTrack]; simp [hV, hS]⟩
      · rcases ha with h | h | ⟨h1, h2⟩
        · exact absurd h hV
        · exact absurd hS (by simp [h])
        · exact ⟨"Unsupported audio codec \"" ++ codec ++ "\"",
            by rw [normalizeAudioTrack]; simp [hV, hS, h1, h2]⟩

/-- Witness for C5: a video call on an audio analysis and an audio call on a
video analysis both fail with an empty trace. -/
theorem validation_failures_no_side_effects_witness :
    videoViolation ⟨false, none, none, none, none, none⟩ ∧
    audioViolation ⟨true, none, none, none, none, none⟩ "aac" ∧
    ((∃ e, e ∈ videoValidationMessages ∧
        normalizeVideoTrackToM4V (fun _ => true) "c" ⟨false, none, none, none, none, none⟩
          "in.webm" "out.m4v" = ([], Except.error e)) ∧
     (∃ e, normalizeAudioTrack (fun _ => true) "c" ⟨true, none, none, none, none, none⟩
          "in.webm" "out.aac" "aac" [] = ([], Except.error e))) :=
  ⟨Or.inl rfl, Or.inl rfl,
   validation_failures_no_side_effects (fun _ => true) "c" "in.webm" "out.m4v"
     ⟨false, none, none, none, none, none⟩ ⟨true, none, none, none, none, none⟩ "aac" []
     (Or.inl rfl) (Or.inl rfl)⟩

/-- C9: an analysis with `startTime` exactly 0 passes validation on both
paths (the source checks `startTime == null`, not truthiness), and the zero
offset flows through: the audio filter delays by 0 ms and a `src` segment is
extracted with a seek of exactly `start - 0 = start`. -/
theorem zero_startTime_accepted (a b : TrackAnalysis)
    (ok : String → Bool) (ctx inputPath outputPath tmpSource dst : String)
    (enc : List String) (w h frameRate : ℚ) (s : Segment)
    (h1 : a.isVideo = true) (h2 : a.startTime = some 0) (h3 : truthy a.endTime = true)
    (h4 : a.gaps.isNone = false)
    (h5 : ∃ vs, a.videoSize = some vs ∧ truthy vs.w = true ∧ truthy vs.h = true)
    (h6 : b.isVideo = false) (h7 : b.startTime = some 0)
    (hsrc : s.type = SegType.src) :
    validateVideo a = Except.ok () ∧
    (normalizeAudioTrack ok ctx b inputPath outputPath "aac" enc).1
        = [Event.run ("audio_" ++ ctx) (aacArgs 0 enc inputPath outputPath)] ∧
    aacArgs 0 enc inputPath outputPath
        = [Arg.str "-i", Arg.str inputPath, Arg.str "-af",
           Arg.str "aresample=async=1,adelay=0:all=true"]
          ++ enc.map Arg.str ++ [Arg.str outputPath] ∧
    argAfter "-ss" (renderSegmentArgs w h frameRate 0 tmpSource dst s)
        = some (Arg.num s.start) := by
  obtain ⟨vs, hvs, hw, hh⟩ := h5
  refine ⟨?_, ?_, ?_, ?_⟩
  · rw [validateVideo]
    simp [h1, h2, h3, h4, hvs, hw, hh]
  · rw [normalizeAudioTrack]
    simp [h6, h7]
  · rw [aacArgs]
    norm_num
    decide
  · rw [renderSegmentArgs, hsrc]
    simp [srcExtractArgs, argAfter]

/-- Witness for C9 with concrete analyses and a concrete source segment. -/
theorem zero_startTime_accepted_witness :
    (validateVideo ⟨true, some 0, some 5, some ⟨some 1280, some 720⟩, some 30, some []⟩
        = Except.ok () ∧
      (normalizeAudioTrack (fun _ => true) "c" ⟨false, some 0, none, none, none, none⟩
          "in.webm" "out.aac" "aac" ["-c:a", "aac"]).1
        = [Event.run "audio_c" (aacArgs 0 ["-c:a", "aac"] "in.webm" "out.aac")] ∧
      aacArgs 0 ["-c:a", "aac"] "in.webm" "out.aac"
        = [Arg.str "-i", Arg.str "in.webm", Arg.str "-af",
           Arg.str "aresample=async=1,adelay=0:all=true"]
          ++ (["-c:a", "aac"] : List String).map Arg.str ++ [Arg.str "out.aac"] ∧
      argAfter "-ss" (renderSegmentArgs 1280 720 30 0 "full.m4v" "seg0.m4v" ⟨0, 5, SegType.src⟩)
        = some (Arg.num (0 : ℚ))) :=
  zero_startTime_accepted
    ⟨true, some 0, some 5, some ⟨some 1280, some 720⟩, some 30, some []⟩
    ⟨false, some 0, none, none, none, none⟩
    (fun _ => true) "c" "in.webm" "out.aac" "full.m4v" "seg0.m4v" ["-c:a", "aac"]
    1280 720 30 ⟨0, 5, SegType.src⟩
    rfl rfl (by decide) rfl ⟨⟨some 1280, some 720⟩, rfl, by decide, by decide⟩ rfl rfl rfl

/-- C10: an analysis with `endTime` exactly 0 is rejected even though the
field is present — the source tests `!analysis.endTime`, and `0` is falsy —
so `normalizeVideoTrackToM4V` throws the endTime/startTime validation error
before doing any work. -/
theorem zero_endTime_rejected (ok : String → Bool) (ctx inputPath outputPath : String)
    (a : TrackAnalysis) (h1 : a.isVideo = true) (h2 : a.endTime = some 0) :
    normalizeVideoTrackToM4V ok ctx a inputPath outputPath
      = ([], Except.error "normalizeVideoTrack expects non-zero endTime and startTime key") := by
  have hval : validateVideo a
      = Except.error "normalizeVideoTrack expects non-zero endTime and startTime key" := by
    rw [validateVideo]
    simp [h1, h2, truthy]
  rw [normalizeVideoTrackToM4V, hval]

/-- Witness for C10: a video analysis with endTime = 0 and startTime present. -/
theorem zero_endTime_rejected_witness :
    normalizeVideoTrackToM4V (fun _ => true) "c"
        ⟨true, some 1, some 0, some ⟨some 1280, some 720⟩, some 30, some []⟩ "in.webm" "out.m4v"
      = ([], Except.error "normalizeVideoTrack expects non-zero endTime and startTime key") :=
  zero_endTime_rejected (fun _ => true) "c" "in.webm" "out.m4v"
    ⟨true, some 1, some 0, some ⟨some 1280, some 720⟩, some 30, some []⟩ rfl rfl

/-- The outcome of one `ffmpeg -hide_banner -encoders` capability probe
(render-track.js lines 13-25): whether `spawnSync` threw, the exit status,
and whether the captured stdout mentions `libfdk_aac`. -/
structure ProbeOutcome where
  threw : Bool
  status : ℤ
  stdoutHasLibfdk : Bool
  deriving DecidableEq

/-- The probe interpretation: `hasLibfdk` stays false unless the probe ran,
exited 0, and its stdout contains `libfdk_aac`; a thrown probe only logs a
warning. -/
def probeHasLibfdk (p : ProbeOutcome) : Bool :=
  !p.threw && (p.status == 0) && p.stdoutHasLibfdk

/-- The preferred configuration (libfdk_aac, high bitrate, fixed profile). -/
def preferredEncoderArgs : List String :=
  ["-c:a", "libfdk_aac", "-b:a", "256k", "-profile:a", "aac_low", "-vbr", "0", "-ar", "48000"]

/-- The fallback configuration (builtin aac encoder at fixed bitrate and
sample rate). -/
def fallbackEncoderArgs : List String :=
  ["-c:a", "aac", "-b:a", "256k", "-ar", "48000"]

/-- The resolver `getAudioEncoderArgs` (render-track.js lines 10-48) with the module-level
memo `g_audioEncoderArgs` made explicit: given the cache state and the probe
outcome, return the resolved configuration and the new cache state.  A cached
value short-circuits the probe entirely. -/
def getAudioEncoderArgs (cache : Option (List String)) (p : ProbeOutcome) :
    List String × Option (List String) :=
  match cache with
  | some args => (args, some args)
  | none =>
      let args := if probeHasLibfdk p then preferredEncoderArgs else fallbackEncoderArgs
      (args, some args)

/-- C7: when the probe reports the preferred encoder absent or the probe
itself fails to run, the first call resolves to the fallback configuration
(no error is possible — the function is total), and any later call in the
same process, whatever its probe would say, returns the same configuration
with the cache unchanged. -/
theorem encoder_fallback_cached (p q : ProbeOutcome)
    (hp : p.stdoutHasLibfdk = false ∨ p.threw = true) :
    getAudioEncoderArgs none p = (fallbackEncoderArgs, some fallbackEncoderArgs) ∧
    getAudioEncoderArgs (getAudioEncoderArgs none p).2 q
      = (fallbackEncoderArgs, some fallbackEncoderArgs) := by
  have hres : probeHasLibfdk p = false := by
    rcases hp with h | h <;> simp [probeHasLibfdk, h]
  have h1 : getAudioEncoderArgs none p = (fallbackEncoderArgs, some fallbackEncoderArgs) := by
    rw [getAudioEncoderArgs]
    simp [hres]
  refine ⟨h1, ?_⟩
  rw [h1]
  rfl

/-- Witness for C7: a probe that ran cleanly but lists no libfdk_aac. -/
theorem encoder_fallback_cached_witness :
    ((⟨false, 0, false⟩ : ProbeOutcome).stdoutHasLibfdk = false ∨
      (⟨false, 0, false⟩ : ProbeOutcome).threw = true) ∧
    (getAudioEncoderArgs none ⟨false, 0, false⟩
        = (fallbackEncoderArgs, some fallbackEncoderArgs) ∧
      getAudioEncoderArgs (getAudioEncoderArgs none ⟨false, 0, false⟩).2 ⟨true, 1, true⟩
        = (fallbackEncoderArgs, some fallbackEncoderArgs)) :=
  ⟨Or.inl rfl, encoder_fallback_cached ⟨false, 0, false⟩ ⟨true, 1, true⟩ (Or.inl rfl)⟩

/-- JavaScript `Path.basename(p, Path.extname(p))`: the last path component with its
final extension removed. -/
def baseNameOf (p : String) : String :=
  let file := (p.splitOn "/").getLastD p
  let parts := file.splitOn "."
  if parts.length ≤ 1 then file else String.intercalate "." parts.dropLast

/-- The mux argument vector (normalize-track.js lines 100-112): stream copy,
mapping stream 0 of input 0 (video) and stream 0 of input 1 (audio). -/
def combineArgs (videoPath audioPath combinedOutputPath : String) : List Arg :=
  [Arg.str "-i", Arg.str videoPath, Arg.str "-i", Arg.str audioPath,
   Arg.str "-c", Arg.str "copy", Arg.str "-map", Arg.str "0:0",
   Arg.str "-map", Arg.str "1:0", Arg.str combinedOutputPath]

/-- The post-loop mux block of normalize-track.js (lines 94-119): when the
requested audio codec is aac and the invocation produced a video path, an
audio path and a combined output path, run the combine command and then
delete the two elementary-stream files; otherwise do nothing. -/
def muxStep (audioCodec : String) (videoPath audioPath combinedOutputPath : Option String) :
    List Event :=
  match videoPath, audioPath, combinedOutputPath with
  | some vp, some ap, some cp =>
      if audioCodec = "aac" then
        [Event.run ("combine_" ++ baseNameOf cp) (combineArgs vp ap cp),
         Event.remove vp, Event.remove ap]
      else []
  | _, _, _ => []

/-- C8: when one invocation produced both files (aac codec), the mux step
runs exactly one stream-copy command mapping video stream 0:0 and audio
stream 1:0 and then removes the two elementary-stream files, in that order;
with the wav codec, or with either file missing, no muxing occurs. -/
theorem mux_stream_copy_and_skip :
    (∀ vp ap cp : String,
      muxStep "aac" (some vp) (some ap) (some cp)
        = [Event.run ("combine_" ++ baseNameOf cp)
             [Arg.str "-i", Arg.str vp, Arg.str "-i", Arg.str ap,
              Arg.str "-c", Arg.str "copy", Arg.str "-map", Arg.str "0:0",
              Arg.str "-map", Arg.str "1:0", Arg.str cp],
           Event.remove vp, Event.remove ap]) ∧
    (∀ vp ap cp : Option String, muxStep "wav" vp ap cp = []) ∧
    (∀ (c : String) (ap cp : Option String), muxStep c none ap cp = []) ∧
    (∀ (c : String) (vp cp : Option String), muxStep c vp none cp = []) := by
  refine ⟨fun vp ap cp => rfl, ?_, ?_, ?_⟩
  · intro vp ap cp
    cases vp with
    | none => rfl
    | some v =>
        cases ap with
        | none => rfl
        | some a =>
            cases cp with
            | none => rfl
            | some c => simp [muxStep]
  · intro c ap cp
    cases ap <;> cases cp <;> rfl
  · intro c vp cp
    cases vp with
    | none => cases cp <;> rfl
    | some v => cases cp <;> rfl
